import Mathlib

/-!
Shallow embedding of the regex engine in `src/src/main.rs` (pattern compiler
`Regex::parse` / `Pattern::parse` and backtracking matcher `Regex::matches` /
`Regex::match_` / `Regex::match_here` and helpers).

Conventions of the embedding:
* Strings are modelled as `List Char`; Rust byte/char positions coincide
  because both pattern and subject are validated to be ASCII before use.
* Rust panics (the `unreachable!()` in `Pattern::matches`, and the
  out-of-bounds slice `&input[1..]` on an empty string in `Regex::match_`)
  are modelled by `Option`: a result of `none` means the Rust code panics.
* `anyhow` errors are modelled by the inductive `RegexError`; the error kinds
  correspond one-to-one to the `anyhow::bail!` sites of the source.
* The parser threads a fuel parameter because the recursion of
  `Pattern::parse` into `Regex::parse` for alternation branches is on
  non-structural substrings.  `Regex.parse` seeds the fuel with
  `(n + 2) * (n + 2)` for an input of length `n`, which strictly exceeds the
  number of fuel decrements on any call path (at most one per consumed
  character per nesting level, with nesting depth below `n`), so the
  `.OutOfFuel` sentinel is unreachable from `Regex.parse`.
-/

namespace Grep

/-- Error kinds of the engine, one per `anyhow::bail!` site in the source
(`RegexError.OutOfFuel` is the fuel-exhaustion sentinel of the embedding,
unreachable from `Regex.parse`). -/
inductive RegexError where
  | UnterminatedCharacterGroup
  | UnterminatedAlternationGroup
  | UnsupportedEscapeSequence
  | NonAsciiPattern
  | NonAsciiSubject
  | OutOfFuel
deriving DecidableEq, Repr

/-- The `Pattern` enum of the source: one unit of compiled pattern syntax. -/
inductive Pattern where
  | Character : Char → Pattern
  | Digit : Pattern
  | Alphanumeric : Pattern
  | PositiveGroup : List Char → Pattern
  | NegativeGroup : List Char → Pattern
  | Start : Pattern
  | End : Pattern
  | OneOrMore : Pattern → Pattern
  | ZeroOrOne : Pattern → Pattern
  | Wildcard : Pattern
  | Alternation : List (List Pattern) → Pattern
deriving Repr

/-- Rust `char::is_ascii`: code point at most `0x7F`. -/
def isAscii (c : Char) : Bool := c.toNat ≤ 127

/-- Function `Pattern::matches` of the source.  `none` models the `unreachable!()`
panic that fires when the pattern is an anchor or a quantifier/alternation
element (the source asserts those never reach this function). -/
def Pattern.matches : Pattern → Char → Option Bool
  | .Character c, ch => some (c == ch)
  | .Digit, ch => some ch.isDigit
  | .Alphanumeric, ch => some ch.isAlphanum
  | .PositiveGroup g, ch => some (g.contains ch)
  | .NegativeGroup g, ch => some (!g.contains ch)
  | .Wildcard, _ => some true
  | _, _ => none

/-- The total single-character predicate of the consuming pattern elements
(the Boolean that `Pattern::matches` returns whenever it does not panic). -/
def Pattern.matchesB : Pattern → Char → Bool
  | .Character c, ch => c == ch
  | .Digit, ch => ch.isDigit
  | .Alphanumeric, ch => ch.isAlphanum
  | .PositiveGroup g, ch => g.contains ch
  | .NegativeGroup g, ch => !g.contains ch
  | .Wildcard, _ => true
  | _, _ => false

/-- The pattern elements on which `Pattern::matches` is defined (does not
hit the `unreachable!()` branch). -/
def Pattern.simpleB : Pattern → Bool
  | .Character _ => true
  | .Digit => true
  | .Alphanumeric => true
  | .PositiveGroup _ => true
  | .NegativeGroup _ => true
  | .Wildcard => true
  | _ => false

theorem Pattern.matches_eq_some (p : Pattern) (c : Char) (h : p.simpleB = true) :
    p.matches c = some (p.matchesB c) := by
  cases p <;> simp_all [Pattern.matches, Pattern.matchesB, Pattern.simpleB]

theorem Pattern.matches_eq_none (p : Pattern) (c : Char) (h : p.simpleB = false) :
    p.matches c = none := by
  cases p <;> simp_all [Pattern.matches, Pattern.simpleB]

/-- The scan of the `'['` branch of `Pattern::parse`: walk the characters
after the (possibly `^`-stripped) opening bracket until the first `']'`,
returning the group content and the remaining input, or `none` when the
input ends first. -/
def splitGroup : List Char → Option (List Char × List Char)
  | [] => none
  | c :: rest =>
    if c = ']' then some ([], rest)
    else match splitGroup rest with
      | none => none
      | some (g, r) => some (c :: g, r)

/-- The `'\\'` branch of `Pattern::parse`: `cs` is the input after the
backslash.  `\d`/`\w` check for a following quantifier; escaped literals
(`\\ \$ \^ \+ \? \.`) do not. -/
def parseEscape (cs : List Char) : Except RegexError (List Char × Pattern) :=
  if cs.head? = some 'd' then
    if cs.tail.head? = some '+' then .ok (cs.tail.tail, .OneOrMore .Digit)
    else if cs.tail.head? = some '?' then .ok (cs.tail.tail, .ZeroOrOne .Digit)
    else .ok (cs.tail, .Digit)
  else if cs.head? = some 'w' then
    if cs.tail.head? = some '+' then .ok (cs.tail.tail, .OneOrMore .Alphanumeric)
    else if cs.tail.head? = some '?' then .ok (cs.tail.tail, .ZeroOrOne .Alphanumeric)
    else .ok (cs.tail, .Alphanumeric)
  else if cs.head? = some '\\' then .ok (cs.tail, .Character '\\')
  else if cs.head? = some '$' then .ok (cs.tail, .Character '$')
  else if cs.head? = some '^' then .ok (cs.tail, .Character '^')
  else if cs.head? = some '+' then .ok (cs.tail, .Character '+')
  else if cs.head? = some '?' then .ok (cs.tail, .Character '?')
  else if cs.head? = some '.' then .ok (cs.tail, .Character '.')
  else .error .UnsupportedEscapeSequence

/-- The `'['` branch of `Pattern::parse`: `cs` is the input after the `[`.
A leading `^` selects a negative group; the scan runs to the first `']'`;
a following `+`/`?` wraps the whole set. -/
def parseGroup (cs : List Char) : Except RegexError (List Char × Pattern) :=
  let (rest, isNeg) :=
    if cs.head? = some '^' then (cs.tail, true) else (cs, false)
  match splitGroup rest with
  | none => .error .UnterminatedCharacterGroup
  | some (g, after) =>
    let inner : Pattern := if isNeg then .NegativeGroup g else .PositiveGroup g
    if after.head? = some '+' then .ok (after.tail, .OneOrMore inner)
    else if after.head? = some '?' then .ok (after.tail, .ZeroOrOne inner)
    else .ok (after, inner)

mutual

/-- Function `Pattern::parse` of the source.  `c` is the first character of the
input, `cs` the rest (the source unwraps the first character and the loop
in `Regex::parse` only calls it on non-empty input). -/
def Pattern.parse (f : Nat) (c : Char) (cs : List Char) :
    Except RegexError (List Char × Pattern) :=
  if c = '^' then .ok (cs, .Start)
  else if c = '$' then .ok (cs, .End)
  else if c = '(' then parseAlternation f cs [] []
  else if c = '[' then parseGroup cs
  else if c = '\\' then parseEscape cs
  else if c = '.' then .ok (cs, .Wildcard)
  else
    if cs.head? = some '+' then .ok (cs.tail, .OneOrMore (.Character c))
    else if cs.head? = some '?' then .ok (cs.tail, .ZeroOrOne (.Character c))
    else .ok (cs, .Character c)
termination_by (f, 1)

/-- The scan loop of the `'('` branch of `Pattern::parse`: `rem` is the
input still to scan, `seg` the characters of the current branch so far,
`acc` the branches already compiled.  On `'|'` and on the terminating `')'`
the current segment is compiled by a recursive `Regex::parse`; running out
of input is the `premature end of alternation group` error. -/
def parseAlternation (f : Nat) (rem : List Char) (seg : List Char)
    (acc : List (List Pattern)) : Except RegexError (List Char × Pattern) :=
  match rem with
  | [] => .error .UnterminatedAlternationGroup
  | ch :: rest =>
    if _hf : f = 0 then .error .OutOfFuel
    else if ch = '|' then
      match Regex.parseF (f - 1) seg with
      | .error e => .error e
      | .ok ps => parseAlternation (f - 1) rest [] (acc ++ [ps])
    else if ch = ')' then
      match Regex.parseF (f - 1) seg with
      | .error e => .error e
      | .ok ps => .ok (rest, .Alternation (acc ++ [ps]))
    else parseAlternation (f - 1) rest (seg ++ [ch]) acc
termination_by (f, 0)
decreasing_by all_goals omega

/-- Function `Regex::parse` of the source (fuelled): reject a non-ASCII pattern,
then repeatedly apply `Pattern::parse` until the input is exhausted. -/
def Regex.parseF (f : Nat) (input : List Char) :
    Except RegexError (List Pattern) :=
  if input.any (fun ch => !(isAscii ch)) then .error .NonAsciiPattern
  else Regex.parseLoop f input
termination_by (f, 3)

/-- The `while !rest.is_empty()` loop of `Regex::parse`. -/
def Regex.parseLoop (f : Nat) (input : List Char) :
    Except RegexError (List Pattern) :=
  match input with
  | [] => .ok []
  | c :: cs =>
    if _hf : f = 0 then .error .OutOfFuel
    else
      match Pattern.parse (f - 1) c cs with
      | .error e => .error e
      | .ok (rest, p) =>
        match Regex.parseLoop (f - 1) rest with
        | .error e => .error e
        | .ok ps => .ok (p :: ps)
termination_by (f, 2)
decreasing_by all_goals omega

end

/-- Function `Regex::parse` of the source, with a fuel seed that strictly dominates
the fuel consumption of any call path (see the module comment). -/
def Regex.parse (input : List Char) : Except RegexError (List Pattern) :=
  Regex.parseF ((input.length + 2) * (input.length + 2)) input

theorem Pattern.one_le_sizeOf (p : Pattern) : 1 ≤ sizeOf p := by
  cases p <;> simp

theorem sizeOf_append (l1 l2 : List Pattern) :
    sizeOf (l1 ++ l2) + 1 = sizeOf l1 + sizeOf l2 := by
  induction l1 with
  | nil => simp; omega
  | cons p l ih => simp [ih]; omega

mutual

/-- Function `Regex::match_here` of the source: try to satisfy the pattern elements
`ps` against the remaining subject `s`.  The source arms `OneOrMore`,
`ZeroOrOne`, `Alternation` and final-`End` appear directly; the guarded
`Character` arm and the catch-all arm of the source are both instances of
`consume` (for a `Character` the catch-all behaves identically to the
guarded arm, testing the first subject character and recursing). -/
def matchHere : List Pattern → List Char → Option Bool
  | [], _ => some true
  | .OneOrMore i :: ps, s => matchOneOrMore i ps s
  | .ZeroOrOne i :: ps, s => matchZeroOrOne i ps s
  | .Alternation alts :: ps, s => matchAlternatives alts ps s
  | .End :: ps, s => if ps.isEmpty then some s.isEmpty else consume .End ps s
  | .Character c :: ps, s => consume (.Character c) ps s
  | .Digit :: ps, s => consume .Digit ps s
  | .Alphanumeric :: ps, s => consume .Alphanumeric ps s
  | .PositiveGroup g :: ps, s => consume (.PositiveGroup g) ps s
  | .NegativeGroup g :: ps, s => consume (.NegativeGroup g) ps s
  | .Start :: ps, s => consume .Start ps s
  | .Wildcard :: ps, s => consume .Wildcard ps s
termination_by ps s => s.length + sizeOf ps

/-- The catch-all arm of `Regex::match_here`: fail on an empty subject,
otherwise test the first subject character with `Pattern::matches`
(possibly panicking) and on success recurse past it. -/
def consume (p : Pattern) (ps : List Pattern) (s : List Char) : Option Bool :=
  match s with
  | [] => some false
  | c :: rest =>
    match p.matches c with
    | none => none
    | some true => matchHere ps rest
    | some false => some false
termination_by s.length + sizeOf ps

/-- Function `Regex::match_one_or_more` of the source: consume characters matching
`i` one at a time, attempting the continuation after each. -/
def matchOneOrMore (i : Pattern) (ps : List Pattern) (s : List Char) :
    Option Bool :=
  match s with
  | [] => some false
  | c :: rest =>
    match i.matches c with
    | none => none
    | some false => some false
    | some true =>
      match matchHere ps rest with
      | none => none
      | some true => some true
      | some false => matchOneOrMore i ps rest
termination_by s.length + sizeOf i + sizeOf ps

/-- Function `Regex::match_zero_or_one` of the source: try the continuation with
zero repetitions first, then with one consumed character.  (The source
attempts `match_here` before inspecting the subject; the case split on the
subject is hoisted outward here, which changes nothing — on an empty
subject the one-character alternative is `false` either way.) -/
def matchZeroOrOne (i : Pattern) (ps : List Pattern) (s : List Char) :
    Option Bool :=
  match s with
  | [] =>
    (match matchHere ps [] with
     | none => none
     | some true => some true
     | some false => some false)
  | c :: rest =>
    match matchHere ps (c :: rest) with
    | none => none
    | some true => some true
    | some false =>
      match i.matches c with
      | none => none
      | some true => matchHere ps rest
      | some false => some false
termination_by s.length + sizeOf i + sizeOf ps
decreasing_by
  all_goals simp_wf
  all_goals (first | omega | (have h := Pattern.one_le_sizeOf i; omega))

/-- Function `Regex::match_alternatives` of the source: for each branch in order,
run `match_here` on the branch's elements concatenated with the remaining
program. -/
def matchAlternatives (alts : List (List Pattern)) (ps : List Pattern)
    (s : List Char) : Option Bool :=
  match alts with
  | [] => some false
  | b :: bs =>
    match matchHere (b ++ ps) s with
    | none => none
    | some true => some true
    | some false => matchAlternatives bs ps s
termination_by s.length + sizeOf alts + sizeOf ps
decreasing_by
  all_goals simp_wf
  all_goals (first | omega | (have h := sizeOf_append b ps; omega))

end

/-- The Rust test `patterns.get(0) == Some(&Pattern::Start)`. -/
def startsWithStart : List Pattern → Bool
  | .Start :: _ => true
  | _ => false

/-- The unanchored search loop of `Regex::match_`: try `match_here` at the
current offset, on failure advance by one character.  The Rust loop slices
`&input[1..]` before testing emptiness, so after a failure at the last
offset `len(s) - 1` it stops without ever trying the empty suffix; a
failure when the subject is already empty slices out of bounds — a panic,
modelled as `none`. -/
def matchLoop (ps : List Pattern) : List Char → Option Bool
  | [] =>
    (match matchHere ps [] with
     | some true => some true
     | _ => none)
  | c :: rest =>
    match matchHere ps (c :: rest) with
    | none => none
    | some true => some true
    | some false => if rest.isEmpty then some false else matchLoop ps rest

/-- Function `Regex::match_` of the source: a program starting with `Start` is tried
only at offset `0` (against the whole subject, with the anchor stripped);
otherwise the unanchored search loop runs. -/
def Regex.match_ (ps : List Pattern) (s : List Char) : Option Bool :=
  if startsWithStart ps then matchHere ps.tail s else matchLoop ps s

/-- Function `Regex::matches` of the source: reject a non-ASCII subject, otherwise
run the search. -/
def Regex.matches (ps : List Pattern) (s : List Char) :
    Except RegexError (Option Bool) :=
  if s.any (fun ch => !(isAscii ch)) then .error .NonAsciiSubject
  else .ok (Regex.match_ ps s)

/-- Length of the maximal prefix of the remaining subject whose characters
all satisfy the inner element of a quantifier (the longest run the
`while` loop of `Regex::match_one_or_more` can consume). -/
def maxRun (i : Pattern) (s : List Char) : Nat :=
  (s.takeWhile (fun c => i.matchesB c)).length

/-- Elements that may appear inside an alternation branch without ever
reaching the `unreachable!()` panic: consuming elements and quantifiers
over consuming elements. -/
def branchOk (p : Pattern) : Bool :=
  match p with
  | .OneOrMore i => i.simpleB
  | .ZeroOrOne i => i.simpleB
  | _ => p.simpleB

/-- Is this element the `End` anchor? -/
def isEnd : Pattern → Bool
  | .End => true
  | _ => false

/-- Elements that are panic-free in any non-final program position:
`branchOk` elements and alternations all of whose branch elements are
`branchOk`. -/
def goodElem (p : Pattern) : Bool :=
  match p with
  | .Alternation alts => alts.all (fun b => b.all branchOk)
  | _ => branchOk p

/-- A program suffix on which `match_here` can never panic: every element
is `goodElem`, except that the very last element may be the `End` anchor. -/
def goodTail : List Pattern → Bool
  | [] => true
  | p :: rest => (goodElem p || (rest.isEmpty && isEnd p)) && goodTail rest

/-- A whole program on which the matcher can never panic: after stripping
a leading `Start` anchor (which `Regex::match_` removes before matching),
the remainder is a `goodTail`. -/
def goodProg (ps : List Pattern) : Bool :=
  if startsWithStart ps then goodTail ps.tail else goodTail ps

/-! ## Parser lemmas -/

theorem splitGroup_append (grp rest : List Char) (h : ']' ∉ grp) :
    splitGroup (grp ++ ']' :: rest) = some (grp, rest) := by
  induction grp with
  | nil => simp [splitGroup]
  | cons c t ih =>
    rw [List.mem_cons, not_or] at h
    have hc : ¬c = ']' := fun hh => h.1 hh.symm
    simp [splitGroup, hc, ih h.2]

/-- C9: compilation fails fast with the specified error kind and no partial
Program: `"[abc"` yields `UnterminatedCharacterGroup`, `"(cat|dog"` yields
`UnterminatedAlternationGroup`, `"\z"` yields `UnsupportedEscapeSequence`,
and any pattern containing a non-ASCII character yields `NonAsciiPattern`
(the ASCII check runs before any parsing). -/
theorem c9_compile_errors :
    Regex.parse ("[abc".toList) = .error .UnterminatedCharacterGroup
    ∧ Regex.parse ("(cat|dog".toList) = .error .UnterminatedAlternationGroup
    ∧ Regex.parse ("\\z".toList) = .error .UnsupportedEscapeSequence
    ∧ ∀ p : List Char, p.any (fun ch => !(isAscii ch)) = true →
        Regex.parse p = .error .NonAsciiPattern := by
  refine ⟨?_, ?_, ?_, fun p hp => ?_⟩
  · simp [Regex.parse, Regex.parseF, Regex.parseLoop, Pattern.parse,
      parseGroup, splitGroup, isAscii]
  · simp [Regex.parse, Regex.parseF, Regex.parseLoop, Pattern.parse,
      parseAlternation, isAscii]
  · simp [Regex.parse, Regex.parseF, Regex.parseLoop, Pattern.parse,
      parseEscape, isAscii]
  · simp [Regex.parse, Regex.parseF, hp]

theorem c9_compile_errors_witness :
    Regex.parse [Char.ofNat 200] = .error .NonAsciiPattern :=
  c9_compile_errors.2.2.2 [Char.ofNat 200] (by decide)

/-- C10: a `.` wildcard is never quantified: `Pattern::parse` on an input
starting with `.` always returns `Wildcard` and consumes only the dot, so
a following `+`/`?` starts a fresh element (compiled as an ordinary
character atom by the next `Pattern::parse` call). -/
theorem c10_wildcard_never_quantified :
    (∀ (f : Nat) (cs : List Char), Pattern.parse f '.' cs = .ok (cs, .Wildcard))
    ∧ Regex.parse (".+".toList) = .ok [.Wildcard, .Character '+']
    ∧ Regex.parse (".?".toList) = .ok [.Wildcard, .Character '?']
    ∧ Regex.parse (".+a".toList)
        = .ok [.Wildcard, .Character '+', .Character 'a'] := by
  refine ⟨fun f cs => by simp [Pattern.parse], ?_, ?_, ?_⟩ <;>
    simp [Regex.parse, Regex.parseF, Regex.parseLoop, Pattern.parse, isAscii]

/-- C4 (counterexample): the claim includes escaped literals such as `\.`
among the atoms a following `+` quantifies, but the compiler does not
check for a quantifier after an escaped literal: `"\.+"` compiles to the
two elements `Literal '.'`, `Literal '+'`, not to `OneOrMore (Literal '.')`. -/
theorem c4_counterexample :
    Regex.parse ("\\.+".toList) = .ok [.Character '.', .Character '+']
    ∧ Regex.parse ("\\.+".toList) ≠ .ok [.OneOrMore (.Character '.')] := by
  constructor <;>
    simp [Regex.parse, Regex.parseF, Regex.parseLoop, Pattern.parse,
      parseEscape, isAscii]

/-- C4 (amended): a `+`/`?` immediately following a plain (unescaped)
literal, a `\d`/`\w` class shorthand, or a whole bracket set wraps exactly
that single atom in `OneOrMore`/`ZeroOrOne`; after an escaped literal
(`\\`, `\$`, `\^`, `\+`, `\?`, `\.`) the escape is compiled to the bare
literal and the `+`/`?` is left in the remaining input as the start of a
separate element. -/
theorem c4_amended :
    (∀ (f : Nat) (ch : Char) (cs : List Char),
      ch ≠ '^' → ch ≠ '$' → ch ≠ '(' → ch ≠ '[' → ch ≠ '\\' → ch ≠ '.' →
      Pattern.parse f ch ('+' :: cs) = .ok (cs, .OneOrMore (.Character ch))
      ∧ Pattern.parse f ch ('?' :: cs) = .ok (cs, .ZeroOrOne (.Character ch)))
    ∧ (∀ (f : Nat) (cs : List Char),
      Pattern.parse f '\\' ('d' :: '+' :: cs) = .ok (cs, .OneOrMore .Digit)
      ∧ Pattern.parse f '\\' ('d' :: '?' :: cs) = .ok (cs, .ZeroOrOne .Digit)
      ∧ Pattern.parse f '\\' ('w' :: '+' :: cs)
          = .ok (cs, .OneOrMore .Alphanumeric)
      ∧ Pattern.parse f '\\' ('w' :: '?' :: cs)
          = .ok (cs, .ZeroOrOne .Alphanumeric))
    ∧ (∀ (f : Nat) (grp cs : List Char), ']' ∉ grp → grp.head? ≠ some '^' →
      Pattern.parse f '[' (grp ++ ']' :: '+' :: cs)
          = .ok (cs, .OneOrMore (.PositiveGroup grp))
      ∧ Pattern.parse f '[' (grp ++ ']' :: '?' :: cs)
          = .ok (cs, .ZeroOrOne (.PositiveGroup grp)))
    ∧ (∀ (f : Nat) (grp cs : List Char), ']' ∉ grp →
      Pattern.parse f '[' ('^' :: grp ++ ']' :: '+' :: cs)
          = .ok (cs, .OneOrMore (.NegativeGroup grp)))
    ∧ (∀ (f : Nat) (e : Char) (cs : List Char),
      (e = '\\' ∨ e = '$' ∨ e = '^' ∨ e = '+' ∨ e = '?' ∨ e = '.') →
      Pattern.parse f '\\' (e :: cs) = .ok (cs, .Character e)) := by
  refine ⟨?_, ?_, ?_, ?_, ?_⟩
  · intro f ch cs h1 h2 h3 h4 h5 h6
    constructor <;> simp [Pattern.parse, h1, h2, h3, h4, h5, h6]
  · intro f cs
    refine ⟨?_, ?_, ?_, ?_⟩ <;> simp [Pattern.parse, parseEscape]
  · intro f grp cs hg hh
    constructor <;>
      simp [Pattern.parse, parseGroup, hh, splitGroup_append grp _ hg]
  · intro f grp cs hg
    simp [Pattern.parse, parseGroup, splitGroup_append grp _ hg]
  · intro f e cs he
    rcases he with rfl | rfl | rfl | rfl | rfl | rfl <;>
      simp [Pattern.parse, parseEscape]

theorem c4_amended_witness :
    Pattern.parse 0 'a' ['+'] = .ok ([], .OneOrMore (.Character 'a')) :=
  (c4_amended.1 0 'a' [] (by decide) (by decide) (by decide) (by decide)
    (by decide) (by decide)).1

/-- C7 (counterexample): the claim says a pattern with a nested
parenthesised group inside a branch compiles successfully; in fact
`"((a)b)"` fails to compile (the branch text `"(a"`, cut off at the first
`')'`, is recursively compiled and hits the unterminated-group error). -/
theorem c7_counterexample :
    Regex.parse ("((a)b)".toList) = .error .UnterminatedAlternationGroup := by
  simp [Regex.parse, Regex.parseF, Regex.parseLoop, Pattern.parse,
    parseAlternation, isAscii]

/-- When the remaining input of the alternation scan contains no `)`, the
scan can only end in a compile error: either it runs out of input
(`UnterminatedAlternationGroup`) or an earlier `|`-terminated segment
fails its recursive compilation first. -/
theorem parseAlternation_no_rparen :
    ∀ (rem : List Char) (f : Nat) (seg : List Char) (acc : List (List Pattern)),
      ')' ∉ rem → ∃ e, parseAlternation f rem seg acc = .error e := by
  intro rem
  induction rem with
  | nil =>
    intro f seg acc _
    exact ⟨.UnterminatedAlternationGroup, by rw [parseAlternation]⟩
  | cons ch rest ih =>
    intro f seg acc h
    rw [List.mem_cons, not_or] at h
    have hch : ¬ch = ')' := fun hh => h.1 hh.symm
    rw [parseAlternation]
    by_cases hf : f = 0
    · exact ⟨.OutOfFuel, by simp [hf]⟩
    · by_cases hbar : ch = '|'
      · cases hpf : Regex.parseF (f - 1) seg with
        | error e => exact ⟨e, by simp [hf, hbar, hpf]⟩
        | ok ps =>
          obtain ⟨e, he⟩ := ih (f - 1) [] (acc ++ [ps]) h.2
          exact ⟨e, by simp [hf, hbar, hpf, he]⟩
      · obtain ⟨e, he⟩ := ih (f - 1) (seg ++ [ch]) acc h.2
        exact ⟨e, by simp [hf, hbar, hch, he]⟩

/-- C7 (amended): the scan of an alternation group is not nesting-aware:
an inner `(` is appended to the current branch text like any ordinary
character, and the first `)` always terminates the group.  Each branch is
then compiled by a recursive `Regex::parse`, in which `(` is special —
and compiling a `(` whose remaining input contains no `)` always fails
(proved for all inputs below); a branch can never contain `)`, the scan
having cut the group there.  So the parentheses of a nested group are not
kept as ordinary compiled branch content: such patterns fail to compile,
with the error kind of the first malformed construct the recursive
compilation hits — `UnterminatedAlternationGroup` for `"((a)b)"`, but
`UnterminatedCharacterGroup` for `"([)](a)b)"` (the first `)` cuts the
branch inside the bracket set) and `UnsupportedEscapeSequence` for
`"(\z(a)b)"`. -/
theorem c7_amended :
    (∀ (f : Nat) (rest seg : List Char) (acc : List (List Pattern)),
      f ≠ 0 → parseAlternation f ('(' :: rest) seg acc
        = parseAlternation (f - 1) rest (seg ++ ['(']) acc)
    ∧ (∀ (f : Nat) (rest seg : List Char) (acc : List (List Pattern)),
      f ≠ 0 → parseAlternation f (')' :: rest) seg acc
        = (match Regex.parseF (f - 1) seg with
           | .error e => .error e
           | .ok ps => .ok (rest, Pattern.Alternation (acc ++ [ps]))))
    ∧ (∀ (f : Nat) (cs : List Char), ')' ∉ cs →
        ∃ e, Pattern.parse f '(' cs = .error e)
    ∧ Regex.parse ("((a)b)".toList) = .error .UnterminatedAlternationGroup
    ∧ Regex.parse ("([)](a)b)".toList) = .error .UnterminatedCharacterGroup
    ∧ Regex.parse ("(\\z(a)b)".toList) = .error .UnsupportedEscapeSequence := by
  refine ⟨fun f rest seg acc hf => ?_, fun f rest seg acc hf => ?_,
    fun f cs h => ?_, ?_, ?_, ?_⟩
  · rw [parseAlternation]
    simp [hf]
  · rw [parseAlternation]
    simp [hf]
  · have hpar : Pattern.parse f '(' cs = parseAlternation f cs [] [] := by
      simp [Pattern.parse]
    obtain ⟨e, he⟩ := parseAlternation_no_rparen cs f [] [] h
    exact ⟨e, by rw [hpar, he]⟩
  · simp [Regex.parse, Regex.parseF, Regex.parseLoop, Pattern.parse,
      parseAlternation, isAscii]
  · simp [Regex.parse, Regex.parseF, Regex.parseLoop, Pattern.parse,
      parseAlternation, parseGroup, splitGroup, isAscii]
  · simp [Regex.parse, Regex.parseF, Regex.parseLoop, Pattern.parse,
      parseAlternation, parseEscape, isAscii]

theorem c7_amended_witness :
    (parseAlternation 5 ('(' :: 'a' :: []) [] []
      = parseAlternation 4 ('a' :: []) ['('] [])
    ∧ (∃ e, Pattern.parse 3 '(' ('a' :: []) = .error e) :=
  ⟨c7_amended.1 5 ['a'] [] [] (by decide),
    c7_amended.2.2.1 3 ['a'] (by decide)⟩

/-! ## Matcher lemmas -/

/-- The unanchored loop on a non-empty subject succeeds exactly when some
offset among `0, …, len(s) - 1` is the first at which `match_here`
succeeds (earlier offsets all returning `false`, not panicking). -/
theorem matchLoop_eq_some_true_iff (ps : List Pattern) (s : List Char)
    (hs : s ≠ []) :
    matchLoop ps s = some true ↔
      ∃ i, i < s.length ∧ matchHere ps (s.drop i) = some true ∧
        ∀ j, j < i → matchHere ps (s.drop j) = some false := by
  induction s with
  | nil => exact absurd rfl hs
  | cons c rest ih =>
    rw [matchLoop]
    cases hmh : matchHere ps (c :: rest) with
    | none =>
      constructor
      · intro h
        exact absurd h (by simp)
      · rintro ⟨i, hi, htrue, hfalse⟩
        exfalso
        cases i with
        | zero =>
          rw [List.drop_zero, hmh] at htrue
          exact absurd htrue (by simp)
        | succ k =>
          have h0 := hfalse 0 (Nat.succ_pos k)
          rw [List.drop_zero, hmh] at h0
          exact absurd h0 (by simp)
    | some b =>
      cases b with
      | true =>
        simp only [true_iff]
        exact ⟨0, by simp, by simpa using hmh,
          fun j hj => absurd hj (Nat.not_lt_zero j)⟩
      | false =>
        by_cases hrest : rest = []
        · subst hrest
          rw [if_pos List.isEmpty_nil]
          constructor
          · intro h
            exact absurd h (by simp)
          · rintro ⟨i, hi, htrue, hfalse⟩
            exfalso
            have hizero : i = 0 := by
              simp only [List.length_cons, List.length_nil] at hi
              omega
            subst hizero
            rw [List.drop_zero, hmh] at htrue
            exact absurd htrue (by simp)
        · rw [if_neg (by simpa using hrest)]
          rw [ih hrest]
          constructor
          · rintro ⟨i, hi, htrue, hfalse⟩
            refine ⟨i + 1, by simp only [List.length_cons]; omega,
              by simpa using htrue, ?_⟩
            intro j hj
            cases j with
            | zero => simpa using hmh
            | succ k => simpa using hfalse k (by omega)
          · rintro ⟨i, hi, htrue, hfalse⟩
            cases i with
            | zero =>
              rw [List.drop_zero, hmh] at htrue
              exact absurd htrue (by simp)
            | succ k =>
              simp only [List.length_cons] at hi
              refine ⟨k, by omega, by simpa using htrue, ?_⟩
              intro j hj
              have := hfalse (j + 1) (by omega)
              simpa using this

/-- C1 (amended): for a program whose first element is not `Start` and a
non-empty ASCII subject, the top-level search attempts `match_here` at the
offsets `0, 1, …, len(s) - 1` in increasing order — the offset `len(s)`
(empty suffix) is never attempted, because the Rust loop advances the
slice before its emptiness test — and returns `true` exactly when some
attempted offset is the first to succeed.  An empty program still matches
every subject trivially at offset `0`. -/
theorem c1_amended (ps : List Pattern) (s : List Char)
    (hstart : startsWithStart ps = false) (hs : s ≠ []) :
    (Regex.match_ ps s = some true ↔
      ∃ i, i < s.length ∧ matchHere ps (s.drop i) = some true ∧
        ∀ j, j < i → matchHere ps (s.drop j) = some false)
    ∧ (∀ t : List Char, Regex.match_ [] t = some true) := by
  constructor
  · rw [Regex.match_, if_neg (by simp [hstart])]
    exact matchLoop_eq_some_true_iff ps s hs
  · intro t
    cases t <;> simp [Regex.match_, startsWithStart, matchLoop, matchHere]

theorem c1_amended_witness :
    Regex.match_ [Pattern.Character 'b'] ('a' :: 'b' :: []) = some true := by
  have h := c1_amended [Pattern.Character 'b'] ('a' :: 'b' :: [])
    (by simp [startsWithStart]) (by simp)
  refine h.1.mpr ⟨1, by simp, ?_, ?_⟩
  · simp [matchHere, consume, Pattern.matches]
  · intro j hj
    have : j = 0 := by omega
    subst this
    simp [matchHere, consume, Pattern.matches]

/-- C1 (counterexample): the claim says the search tries every offset up to
`len(s)` inclusive; but for the program compiled from `"$"` (a single
`End`, first element not `Start`) and subject `"a"`, the search returns
`false` even though `match_here` succeeds at offset `1 = len(s)` — that
offset is never attempted. -/
theorem c1_counterexample :
    Regex.parse ("$".toList) = .ok [Pattern.End]
    ∧ Regex.matches [Pattern.End] ("a".toList) = .ok (some false)
    ∧ matchHere [Pattern.End] (("a".toList).drop 1) = some true := by
  refine ⟨?_, ?_, ?_⟩
  · simp [Regex.parse, Regex.parseF, Regex.parseLoop, Pattern.parse, isAscii]
  · simp [Regex.matches, Regex.match_, startsWithStart, matchLoop, matchHere,
      isAscii]
  · simp [matchHere]

/-- On a non-empty subject, the unanchored loop with a single literal
element computes exactly character containment. -/
theorem matchLoop_character (c : Char) (s : List Char) (hs : s ≠ []) :
    matchLoop [Pattern.Character c] s = some (s.contains c) := by
  induction s with
  | nil => exact absurd rfl hs
  | cons x rest ih =>
    rw [matchLoop]
    by_cases hx : c = x
    · subst hx
      simp [matchHere, consume, Pattern.matches, List.contains_cons]
    · have hbeq : (c == x) = false := beq_eq_false_iff_ne.mpr hx
      have hmh : matchHere [Pattern.Character c] (x :: rest) = some false := by
        simp [matchHere, consume, Pattern.matches, hbeq]
      rw [hmh]
      by_cases hrest : rest = []
      · subst hrest
        simp [List.contains_cons, hx]
      · rw [if_neg (by simpa using hrest), ih hrest]
        simp [List.contains_cons, hx]

/-- C8 (amended): for every ASCII character `c` that compiles to a
single-character literal program (`c` not one of the metacharacters
`^ $ ( [ \ .`) and every **non-empty** ASCII subject `s`, matching returns
exactly `s.contains c` (unanchored containment).  (On the empty subject
the matcher panics instead of returning `false`; see the counterexample.) -/
theorem c8_amended (c : Char) (s : List Char)
    (hc : isAscii c = true)
    (h1 : c ≠ '^') (h2 : c ≠ '$') (h3 : c ≠ '(') (h4 : c ≠ '[')
    (h5 : c ≠ '\\') (h6 : c ≠ '.')
    (hs : s ≠ []) (hsa : s.all isAscii = true) :
    Regex.parse [c] = .ok [Pattern.Character c]
    ∧ Regex.matches [Pattern.Character c] s = .ok (some (s.contains c)) := by
  constructor
  · simp [Regex.parse, Regex.parseF, Regex.parseLoop, Pattern.parse,
      hc, h1, h2, h3, h4, h5, h6]
  · have hany : s.any (fun ch => !(isAscii ch)) = false := by
      rw [List.all_eq_true] at hsa
      rw [List.any_eq_false]
      intro ch hch
      simp [hsa ch hch]
    rw [Regex.matches, if_neg (by simp [hany])]
    rw [Regex.match_, if_neg (by simp [startsWithStart])]
    rw [matchLoop_character c s hs]

theorem c8_amended_witness :
    Regex.parse ['b'] = .ok [Pattern.Character 'b']
    ∧ Regex.matches [Pattern.Character 'b'] ('a' :: 'b' :: [])
        = .ok (some (('a' :: 'b' :: []).contains 'b')) :=
  c8_amended 'b' ('a' :: 'b' :: []) (by decide) (by decide) (by decide)
    (by decide) (by decide) (by decide) (by decide) (by simp) (by decide)

/-- C8 (counterexample): the claim quantifies over **every** ASCII subject,
but on the empty subject the code panics (out-of-bounds slice in the
search loop) instead of returning `false = "".contains(c)`: matching the
compiled program of `"a"` against `""` yields the panic marker, not a
boolean. -/
theorem c8_counterexample :
    Regex.parse ("a".toList) = .ok [Pattern.Character 'a']
    ∧ Regex.matches [Pattern.Character 'a'] [] = .ok none
    ∧ ([] : List Char).contains 'a' = false := by
  refine ⟨?_, ?_, by decide⟩
  · simp [Regex.parse, Regex.parseF, Regex.parseLoop, Pattern.parse, isAscii]
  · simp [Regex.matches, Regex.match_, startsWithStart, matchLoop, matchHere,
      consume, isAscii]

/-- C5: for a `OneOrMore(inner)` whose inner element has a character
predicate (as every parser-produced inner does), the quantifier succeeds
exactly when some repetition count `k` with `1 ≤ k ≤ maxRun` is the
**first** for which the continuation succeeds on the subject minus its
first `k` characters: counts are tried in increasing order (shortest
first) and every earlier count must have failed (returned `false`). -/
theorem c5_one_or_more (i : Pattern) (ps : List Pattern) (s : List Char)
    (hi : i.simpleB = true) :
    matchOneOrMore i ps s = some true ↔
      ∃ k, 1 ≤ k ∧ k ≤ maxRun i s ∧ matchHere ps (s.drop k) = some true ∧
        ∀ j, 1 ≤ j → j < k → matchHere ps (s.drop j) = some false := by
  induction s with
  | nil =>
    rw [matchOneOrMore]
    constructor
    · intro h
      exact absurd h (by simp)
    · rintro ⟨k, hk1, hk2, -, -⟩
      exfalso
      simp [maxRun] at hk2
      omega
  | cons c rest ih =>
    rw [matchOneOrMore, Pattern.matches_eq_some i c hi]
    by_cases hb : i.matchesB c
    · rw [hb]
      cases hmh : matchHere ps rest with
      | none =>
        constructor
        · intro h
          exact absurd h (by simp)
        · rintro ⟨k, hk1, hk2, hk3, hk4⟩
          exfalso
          cases k with
          | zero => omega
          | succ n =>
            cases n with
            | zero =>
              simp only [List.drop_succ_cons, List.drop_zero] at hk3
              rw [hmh] at hk3
              exact absurd hk3 (by simp)
            | succ nn =>
              have h1 := hk4 1 le_rfl (by omega)
              simp only [List.drop_succ_cons, List.drop_zero] at h1
              rw [hmh] at h1
              exact absurd h1 (by simp)
      | some b =>
        cases b with
        | true =>
          constructor
          · intro _
            refine ⟨1, le_refl 1, ?_, by simpa using hmh,
              fun j hj1 hj2 => absurd hj2 (by omega)⟩
            simp [maxRun, List.takeWhile_cons, hb]
          · intro _
            rfl
        | false =>
          have hrun : maxRun i (c :: rest) = maxRun i rest + 1 := by
            simp [maxRun, List.takeWhile_cons, hb]
          change matchOneOrMore i ps rest = some true ↔ _
          rw [ih]
          constructor
          · rintro ⟨k, hk1, hk2, hk3, hk4⟩
            refine ⟨k + 1, by omega, by omega, by simpa using hk3, ?_⟩
            intro j hj1 hj2
            cases j with
            | zero => omega
            | succ n =>
              cases n with
              | zero => simpa using hmh
              | succ nn =>
                have := hk4 (nn + 1) (by omega) (by omega)
                simpa using this
          · rintro ⟨k, hk1, hk2, hk3, hk4⟩
            cases k with
            | zero => omega
            | succ n =>
              cases n with
              | zero =>
                exfalso
                simp only [List.drop_succ_cons, List.drop_zero] at hk3
                rw [hmh] at hk3
                exact absurd hk3 (by simp)
              | succ nn =>
                refine ⟨nn + 1, by omega, by omega, by simpa using hk3, ?_⟩
                intro j hj1 hj2
                have := hk4 (j + 1) (by omega) (by omega)
                simpa using this
    · rw [Bool.not_eq_true] at hb
      rw [hb]
      constructor
      · intro h
        exact absurd h (by simp)
      · rintro ⟨k, hk1, hk2, -, -⟩
        exfalso
        have : maxRun i (c :: rest) = 0 := by
          simp [maxRun, List.takeWhile_cons, hb]
        omega

theorem c5_one_or_more_witness :
    matchOneOrMore Pattern.Digit [] ('1' :: []) = some true := by
  have h := c5_one_or_more Pattern.Digit [] ('1' :: []) (by decide)
  refine h.mpr ⟨1, le_refl 1, ?_, by simp [matchHere],
    fun j hj1 hj2 => absurd hj2 (by omega)⟩
  simp [maxRun, List.takeWhile_cons, Pattern.matchesB]

/-- C6: an alternation followed by the remaining program elements `ps`
succeeds exactly when some branch — in declaration order, the first
success winning and earlier branches all failing (returning `false`) —
makes `match_here` succeed on the branch's elements concatenated with
`ps`, starting from the first element of the concatenation. -/
theorem c6_alternation (alts : List (List Pattern)) (ps : List Pattern)
    (s : List Char) :
    matchAlternatives alts ps s = some true ↔
      ∃ i, i < alts.length ∧ matchHere (alts.getD i [] ++ ps) s = some true ∧
        ∀ j, j < i → matchHere (alts.getD j [] ++ ps) s = some false := by
  induction alts with
  | nil =>
    rw [matchAlternatives]
    constructor
    · intro h
      exact absurd h (by simp)
    · rintro ⟨i, hi, -, -⟩
      exact absurd hi (by simp)
  | cons b bs ih =>
    rw [matchAlternatives]
    cases hmh : matchHere (b ++ ps) s with
    | none =>
      constructor
      · intro h
        exact absurd h (by simp)
      · rintro ⟨i, hi, htrue, hfalse⟩
        exfalso
        cases i with
        | zero =>
          rw [List.getD_cons_zero, hmh] at htrue
          exact absurd htrue (by simp)
        | succ k =>
          have h0 := hfalse 0 (Nat.succ_pos k)
          rw [List.getD_cons_zero, hmh] at h0
          exact absurd h0 (by simp)
    | some v =>
      cases v with
      | true =>
        constructor
        · intro _
          exact ⟨0, by simp, by simpa using hmh,
            fun j hj => absurd hj (Nat.not_lt_zero j)⟩
        · intro _
          rfl
      | false =>
        change matchAlternatives bs ps s = some true ↔ _
        rw [ih]
        constructor
        · rintro ⟨i, hi, htrue, hfalse⟩
          refine ⟨i + 1, by simp only [List.length_cons]; omega,
            by simpa using htrue, ?_⟩
          intro j hj
          cases j with
          | zero => simpa using hmh
          | succ k => simpa using hfalse k (by omega)
        · rintro ⟨i, hi, htrue, hfalse⟩
          cases i with
          | zero =>
            rw [List.getD_cons_zero, hmh] at htrue
            exact absurd htrue (by simp)
          | succ k =>
            simp only [List.length_cons] at hi
            refine ⟨k, by omega, by simpa using htrue, ?_⟩
            intro j hj
            have := hfalse (j + 1) (by omega)
            simpa using this

/-- C3 (evaluation at the failing input): `"a^b"` compiles to a program
with `Start` in a non-first position; matching the ASCII subject `"aa"`
reaches that anchor with a non-empty remaining subject and the code
panics at the `unreachable!()` in `Pattern::matches` (modelled `none`),
instead of treating the element as an always-failing step. -/
theorem c3_misplaced_anchor_panics :
    Regex.parse ("a^b".toList)
      = .ok [Pattern.Character 'a', Pattern.Start, Pattern.Character 'b']
    ∧ Regex.matches [Pattern.Character 'a', Pattern.Start, Pattern.Character 'b']
        ("aa".toList) = .ok none
    ∧ Pattern.matches Pattern.Start 'a' = none := by
  refine ⟨?_, ?_, rfl⟩
  · simp [Regex.parse, Regex.parseF, Regex.parseLoop, Pattern.parse, isAscii]
  · simp [Regex.matches, Regex.match_, startsWithStart, matchLoop, matchHere,
      consume, Pattern.matches, isAscii]

/-! ## Totality of the matcher on anchor-safe programs (for C2) -/

theorem one_le_sizeOf_list {α : Type} [SizeOf α] (l : List α) :
    1 ≤ sizeOf l := by
  cases l <;> simp_arith

theorem goodTail_cons (p : Pattern) (rest : List Pattern)
    (h : goodTail (p :: rest) = true) :
    (goodElem p = true ∨ (rest = [] ∧ isEnd p = true)) ∧ goodTail rest = true := by
  rw [goodTail, Bool.and_eq_true, Bool.or_eq_true, Bool.and_eq_true] at h
  exact ⟨h.1.imp id (fun hh => ⟨List.isEmpty_iff.mp hh.1, hh.2⟩), h.2⟩

theorem goodTail_append (b ps : List Pattern) (hb : b.all branchOk = true)
    (hps : goodTail ps = true) : goodTail (b ++ ps) = true := by
  induction b with
  | nil => simpa using hps
  | cons p t ih =>
    rw [List.all_cons, Bool.and_eq_true] at hb
    rw [List.cons_append, goodTail]
    have hgp : goodElem p = true := by
      cases p <;> simp_all [goodElem, branchOk, Pattern.simpleB]
    simp [hgp, ih hb.2]

/-- On programs free of misplaced anchors (`goodTail`), none of the
matcher's recursive functions can reach the `unreachable!()` panic:
every call returns `some` boolean.  Proved by strong induction on the
termination measure shared by the mutual definitions. -/
theorem matcherTotal : ∀ m : Nat,
    (∀ ps s, s.length + sizeOf ps ≤ m → goodTail ps = true →
        (matchHere ps s).isSome = true)
    ∧ (∀ p ps s, s.length + sizeOf ps ≤ m → p.simpleB = true →
        goodTail ps = true → (consume p ps s).isSome = true)
    ∧ (∀ i ps s, s.length + sizeOf i + sizeOf ps ≤ m → i.simpleB = true →
        goodTail ps = true → (matchOneOrMore i ps s).isSome = true)
    ∧ (∀ i ps s, s.length + sizeOf i + sizeOf ps ≤ m → i.simpleB = true →
        goodTail ps = true → (matchZeroOrOne i ps s).isSome = true)
    ∧ (∀ alts ps s, s.length + sizeOf alts + sizeOf ps ≤ m →
        alts.all (fun b => b.all branchOk) = true → goodTail ps = true →
        (matchAlternatives alts ps s).isSome = true) := by
  intro m
  induction m using Nat.strong_induction_on with
  | _ m ih =>
  have hP : 0 < m → (∀ ps s, s.length + sizeOf ps ≤ m - 1 → goodTail ps = true →
      (matchHere ps s).isSome = true) := fun hm => (ih (m - 1) (by omega)).1
  have hC : 0 < m → (∀ p ps s, s.length + sizeOf ps ≤ m - 1 → p.simpleB = true →
      goodTail ps = true → (consume p ps s).isSome = true) :=
    fun hm => (ih (m - 1) (by omega)).2.1
  have hO : 0 < m → (∀ i ps s, s.length + sizeOf i + sizeOf ps ≤ m - 1 →
      i.simpleB = true → goodTail ps = true →
      (matchOneOrMore i ps s).isSome = true) :=
    fun hm => (ih (m - 1) (by omega)).2.2.1
  have hA : 0 < m → (∀ alts ps s, s.length + sizeOf alts + sizeOf ps ≤ m - 1 →
      alts.all (fun b => b.all branchOk) = true → goodTail ps = true →
      (matchAlternatives alts ps s).isSome = true) :=
    fun hm => (ih (m - 1) (by omega)).2.2.2.2
  refine ⟨?_, ?_, ?_, ?_, ?_⟩
  -- matchHere
  · intro ps s hsize hgood
    match ps with
    | [] => rw [matchHere]; rfl
    | .OneOrMore i :: rest =>
      have hg := goodTail_cons _ _ hgood
      have hge : goodElem (.OneOrMore i) = true := by
        rcases hg.1 with h | ⟨-, h⟩
        · exact h
        · exact absurd h (by simp [isEnd])
      have hi : i.simpleB = true := by
        simpa [goodElem, branchOk] using hge
      have hsz : sizeOf (Pattern.OneOrMore i :: rest)
          = 2 + sizeOf i + sizeOf rest := by simp; omega
      rw [matchHere]
      exact hO (by omega) i rest s (by omega) hi hg.2
    | .ZeroOrOne i :: rest =>
      have hg := goodTail_cons _ _ hgood
      have hge : goodElem (.ZeroOrOne i) = true := by
        rcases hg.1 with h | ⟨-, h⟩
        · exact h
        · exact absurd h (by simp [isEnd])
      have hi : i.simpleB = true := by
        simpa [goodElem, branchOk] using hge
      have hsz : sizeOf (Pattern.ZeroOrOne i :: rest)
          = 2 + sizeOf i + sizeOf rest := by simp; omega
      rw [matchHere]
      exact (ih (m - 1) (by omega)).2.2.2.1 i rest s (by omega) hi hg.2
    | .Alternation alts :: rest =>
      have hg := goodTail_cons _ _ hgood
      have hge : goodElem (.Alternation alts) = true := by
        rcases hg.1 with h | ⟨-, h⟩
        · exact h
        · exact absurd h (by simp [isEnd])
      have hall : alts.all (fun b => b.all branchOk) = true := by
        simpa [goodElem] using hge
      have hsz : sizeOf (Pattern.Alternation alts :: rest)
          = 2 + sizeOf alts + sizeOf rest := by simp; omega
      rw [matchHere]
      exact hA (by omega) alts rest s (by omega) hall hg.2
    | .End :: rest =>
      have hg := goodTail_cons _ _ hgood
      rcases hg.1 with h | ⟨hrest, -⟩
      · exact absurd h (by simp [goodElem, branchOk, Pattern.simpleB])
      · subst hrest
        rw [matchHere, if_pos List.isEmpty_nil]
        rfl
    | .Character c :: rest =>
      have hg := goodTail_cons _ _ hgood
      have hsz : 2 + sizeOf rest ≤ sizeOf (Pattern.Character c :: rest) := by
        simp; omega
      rw [matchHere]
      exact hC (by omega) _ rest s (by omega) rfl hg.2
    | .Digit :: rest =>
      have hg := goodTail_cons _ _ hgood
      have hsz : sizeOf (Pattern.Digit :: rest) = 2 + sizeOf rest := by simp
      rw [matchHere]
      exact hC (by omega) _ rest s (by omega) rfl hg.2
    | .Alphanumeric :: rest =>
      have hg := goodTail_cons _ _ hgood
      have hsz : sizeOf (Pattern.Alphanumeric :: rest) = 2 + sizeOf rest := by
        simp
      rw [matchHere]
      exact hC (by omega) _ rest s (by omega) rfl hg.2
    | .PositiveGroup g :: rest =>
      have hg := goodTail_cons _ _ hgood
      have hsz : 2 + sizeOf rest ≤ sizeOf (Pattern.PositiveGroup g :: rest) := by
        have := one_le_sizeOf_list g
        simp; omega
      rw [matchHere]
      exact hC (by omega) _ rest s (by omega) rfl hg.2
    | .NegativeGroup g :: rest =>
      have hg := goodTail_cons _ _ hgood
      have hsz : 2 + sizeOf rest ≤ sizeOf (Pattern.NegativeGroup g :: rest) := by
        have := one_le_sizeOf_list g
        simp; omega
      rw [matchHere]
      exact hC (by omega) _ rest s (by omega) rfl hg.2
    | .Wildcard :: rest =>
      have hg := goodTail_cons _ _ hgood
      have hsz : sizeOf (Pattern.Wildcard :: rest) = 2 + sizeOf rest := by simp
      rw [matchHere]
      exact hC (by omega) _ rest s (by omega) rfl hg.2
    | .Start :: rest =>
      have hg := goodTail_cons _ _ hgood
      rcases hg.1 with h | ⟨-, h⟩
      · exact absurd h (by simp [goodElem, branchOk, Pattern.simpleB])
      · exact absurd h (by simp [isEnd])
  -- consume
  · intro p ps s hsize hsimple hgood
    match s with
    | [] => rw [consume]; rfl
    | c :: rest =>
      rw [consume, Pattern.matches_eq_some p c hsimple]
      cases hb : p.matchesB c with
      | true =>
        simp only [List.length_cons] at hsize
        exact hP (by omega) ps rest (by omega) hgood
      | false => rfl
  -- matchOneOrMore
  · intro i ps s hsize hsimple hgood
    match s with
    | [] => rw [matchOneOrMore]; rfl
    | c :: rest =>
      rw [matchOneOrMore, Pattern.matches_eq_some i c hsimple]
      cases hb : i.matchesB c with
      | false => rfl
      | true =>
        simp only [List.length_cons] at hsize
        have hone := Pattern.one_le_sizeOf i
        cases hmh : matchHere ps rest with
        | none =>
          have := hP (by omega) ps rest (by omega) hgood
          rw [hmh] at this
          exact absurd this (by simp)
        | some b =>
          cases b with
          | true => rfl
          | false => exact hO (by omega) i ps rest (by omega) hsimple hgood
  -- matchZeroOrOne
  · intro i ps s hsize hsimple hgood
    have hone := Pattern.one_le_sizeOf i
    match s with
    | [] =>
      rw [matchZeroOrOne]
      cases hmh : matchHere ps [] with
      | none =>
        have := hP (by omega) ps [] (by simp; omega) hgood
        rw [hmh] at this
        exact absurd this (by simp)
      | some b => cases b <;> rfl
    | c :: rest =>
      rw [matchZeroOrOne]
      simp only [List.length_cons] at hsize
      cases hmh : matchHere ps (c :: rest) with
      | none =>
        have := hP (by omega) ps (c :: rest) (by simp; omega) hgood
        rw [hmh] at this
        exact absurd this (by simp)
      | some b =>
        cases b with
        | true => rfl
        | false =>
          rw [Pattern.matches_eq_some i c hsimple]
          cases hb : i.matchesB c with
          | false => rfl
          | true => exact hP (by omega) ps rest (by omega) hgood
  -- matchAlternatives
  · intro alts ps s hsize hall hgood
    match alts with
    | [] => rw [matchAlternatives]; rfl
    | b :: bs =>
      rw [List.all_cons, Bool.and_eq_true] at hall
      have happ := sizeOf_append b ps
      have hb1 := one_le_sizeOf_list b
      have hbs1 := one_le_sizeOf_list bs
      have hsz : sizeOf (b :: bs) = 1 + sizeOf b + sizeOf bs := by simp
      rw [matchAlternatives]
      cases hmh : matchHere (b ++ ps) s with
      | none =>
        have := hP (by omega) (b ++ ps) s (by omega)
          (goodTail_append b ps hall.1 hgood)
        rw [hmh] at this
        exact absurd this (by simp)
      | some v =>
        cases v with
        | true => rfl
        | false => exact hA (by omega) bs ps s (by omega) hall.2 hgood

/-- On a non-empty subject the unanchored loop never panics when
`match_here` is total on the program. -/
theorem matchLoop_isSome (ps : List Pattern) (s : List Char) (hs : s ≠ [])
    (hgood : goodTail ps = true) : (matchLoop ps s).isSome = true := by
  induction s with
  | nil => exact absurd rfl hs
  | cons c rest ih =>
    rw [matchLoop]
    have hmh := (matcherTotal ((c :: rest).length + sizeOf ps)).1 ps (c :: rest)
      le_rfl hgood
    cases hmhe : matchHere ps (c :: rest) with
    | none => rw [hmhe] at hmh; exact absurd hmh (by simp)
    | some b =>
      cases b with
      | true => rfl
      | false =>
        by_cases hrest : rest = []
        · subst hrest
          rw [if_pos List.isEmpty_nil]
          rfl
        · rw [if_neg (by simpa using hrest)]
          exact ih hrest

/-- C2 (amended): `MatchError` is raised exactly when the subject contains
a non-ASCII character; and for every **non-empty** ASCII subject matched
against a program free of misplaced anchors (`goodProg`), the matcher
returns a boolean.  (On the empty subject, or when a misplaced anchor is
reached with input left, the code panics instead — see the counterexample
and C3.) -/
theorem c2_amended (ps : List Pattern) (s : List Char)
    (hgood : goodProg ps = true) (hs : s ≠ []) :
    (Regex.matches ps s = .error .NonAsciiSubject ↔
      s.any (fun ch => !(isAscii ch)) = true)
    ∧ (s.any (fun ch => !(isAscii ch)) = false →
      ∃ b : Bool, Regex.matches ps s = .ok (some b)) := by
  constructor
  · rw [Regex.matches]
    by_cases h : s.any (fun ch => !(isAscii ch)) = true
    · simp [h]
    · simp [h]
  · intro h
    rw [Regex.matches, if_neg (by simp [h])]
    rw [Regex.match_]
    by_cases hst : startsWithStart ps = true
    · rw [if_pos hst]
      have hgt : goodTail ps.tail = true := by
        rw [goodProg, if_pos hst] at hgood
        exact hgood
      have hsome := (matcherTotal (s.length + sizeOf ps.tail)).1 ps.tail s
        le_rfl hgt
      obtain ⟨b, hb⟩ := Option.isSome_iff_exists.mp hsome
      exact ⟨b, by rw [hb]⟩
    · rw [if_neg hst]
      have hgt : goodTail ps = true := by
        rw [goodProg, if_neg hst] at hgood
        exact hgood
      have hsome := matchLoop_isSome ps s hs hgt
      obtain ⟨b, hb⟩ := Option.isSome_iff_exists.mp hsome
      exact ⟨b, by rw [hb]⟩

theorem c2_amended_witness :
    ∃ b : Bool, Regex.matches [Pattern.Character 'a'] ('b' :: [])
      = .ok (some b) :=
  (c2_amended [Pattern.Character 'a'] ['b'] (by decide) (by simp)).2 (by decide)

/-- C2 (counterexample): the claim says every well-formed ASCII subject —
including the empty one — yields a boolean without panicking; but the
compiled program of `"\d"` matched against the empty ASCII subject panics
(the search loop slices `&input[1..]` out of bounds after the failed
offset-0 attempt), returning no boolean. -/
theorem c2_counterexample :
    Regex.parse ("\\d".toList) = .ok [Pattern.Digit]
    ∧ Regex.matches [Pattern.Digit] [] = .ok none := by
  constructor
  · simp [Regex.parse, Regex.parseF, Regex.parseLoop, Pattern.parse,
      parseEscape, isAscii]
  · simp [Regex.matches, Regex.match_, startsWithStart, matchLoop, matchHere,
      consume, isAscii]

end Grep
